import Mathlib

/-!
Formal model of the geometry fragmentation and physical-group resolution
engine of python_magnetgmsh, embedded shallowly in Lean 4.

Python floats are modelled as rationals; the gmsh kernel is modelled
explicitly where its state matters (physical-group registry, mesh-size
field table).  Each definition mirrors one function (or one loop of a
function) of the source tree; the source location is given in its doc
comment.
-/

namespace Magnetgmsh

/- ----------------------------------------------------------------
   mesh/bcs.py
   ---------------------------------------------------------------- -/

/-- Tolerance padding of an axisymmetric bounding box, from
`minmax(box, eps)` in `mesh/bcs.py` (lines 10-43).  The input list is
`[rmin, zmin, rmax, zmax]`; the result tuple is, as in the source,
`(rmin, rmax, zmin, zmax)`.  Each bound is first scaled by the
"positive" rule, then overwritten by the negative-sign rule and the
exact-zero rule, exactly as the source does with sequential
assignments. -/
def minmax (box : List ℚ) (eps : ℚ) : ℚ × ℚ × ℚ × ℚ :=
  let b0 := box.getD 0 0
  let b1 := box.getD 1 0
  let b2 := box.getD 2 0
  let b3 := box.getD 3 0
  let rmin := b0 * (1 - eps)
  let rmin := if b0 < 0 then b0 * (1 + eps) else rmin
  let rmin := if b0 = 0 then -eps else rmin
  let zmin := b1 * (1 - eps)
  let zmin := if b1 < 0 then b1 * (1 + eps) else zmin
  let zmin := if b1 = 0 then -eps else zmin
  let rmax := b2 * (1 + eps)
  let rmax := if b2 < 0 then b2 * (1 - eps) else rmax
  let rmax := if b2 = 0 then eps else rmax
  let zmax := b3 * (1 + eps)
  let zmax := if b3 < 0 then b3 * (1 - eps) else zmax
  let zmax := if b3 = 0 then eps else zmax
  (rmin, rmax, zmin, zmax)

/-- Closed form of the lower-bound padding performed by `minmax`. -/
def padLo (b eps : ℚ) : ℚ :=
  if b = 0 then -eps else if b < 0 then b * (1 + eps) else b * (1 - eps)

/-- Closed form of the upper-bound padding performed by `minmax`. -/
def padHi (b eps : ℚ) : ℚ :=
  if b = 0 then eps else if b < 0 then b * (1 - eps) else b * (1 + eps)

/-- One gmsh physical group: its dimension, its entity tags and its
physical name. -/
structure PhysGroup where
  dim : Nat
  tags : List Nat
  name : String
deriving DecidableEq

/-- Specification of the `box` argument of `create_bcs`: either one
bounding box (a list of floats) or a list of bounding boxes. -/
inductive BoxSpec where
  | single (b : List ℚ)
  | multi (bs : List (List ℚ))
deriving DecidableEq

/-- Entity gathering loop of `create_bcs` in `mesh/bcs.py` (lines
58-73).  The kernel query `getEntitiesInBoundingBox` is abstracted as
the function `query`, taking the padded `(rmin, rmax, zmin, zmax)`
tuple and the requested dimension, and returning `(dim, tag)` pairs. -/
def bcs_query (query : ℚ × ℚ × ℚ × ℚ → Nat → List (Nat × Nat))
    (box : BoxSpec) (dim : Nat) (eps : ℚ) : List (Nat × Nat) :=
  match box with
  | .single b => query (minmax b eps) dim
  | .multi bs => bs.foldl (fun acc item => acc ++ query (minmax item eps) dim) []

/-- Model of `gmsh.model.addPhysicalGroup(dim, tags)`: append a new
group to the registry and return its identifier (its index in the
registry). -/
def addPhysicalGroup (registry : List PhysGroup) (dim : Nat) (tags : List Nat) :
    List PhysGroup × Nat :=
  (registry ++ [⟨dim, tags, ""⟩], registry.length)

/-- Helper for `setPhysicalName`: walk the registry and rename the
group whose index is `tag` and whose dimension is `dim`. -/
def setNameGo : List PhysGroup → Nat → Nat → String → Nat → List PhysGroup
  | [], _, _, _, _ => []
  | g :: rest, dim, tag, nm, i =>
      (if i = tag ∧ g.dim = dim then { g with name := nm } else g)
        :: setNameGo rest dim tag nm (i + 1)

/-- Model of `gmsh.model.setPhysicalName(dim, tag, name)`. -/
def setPhysicalName (registry : List PhysGroup) (dim tag : Nat) (nm : String) :
    List PhysGroup :=
  setNameGo registry dim tag nm 0

/-- Model of `create_bcs(name, box, dim, eps)` from `mesh/bcs.py`
(lines 46-81): gather the entities of dimension `dim` found in the
tolerance-padded boxes, then register them as a physical group with
`addPhysicalGroup(1, ...)` and name it with `setPhysicalName(1, ps,
name)`, returning the new registry and the group id `ps`.  The group
is registered and returned even when no entity was found. -/
def create_bcs (registry : List PhysGroup)
    (query : ℚ × ℚ × ℚ × ℚ → Nat → List (Nat × Nat))
    (name : String) (box : BoxSpec) (dim : Nat) (eps : ℚ) :
    List PhysGroup × Nat :=
  let ov := bcs_query query box dim eps
  let r := addPhysicalGroup registry 1 (ov.map Prod.snd)
  (setPhysicalName r.1 1 r.2 name, r.2)

/- ----------------------------------------------------------------
   Bitter.py : gmsh_ids reconciliation loop
   ---------------------------------------------------------------- -/

/-- Surface-dimension tags of one descendant list, in reported order
(the `dim == 2` branch of the loop in `Bitter.py` lines 118-129). -/
def surfaceTags (entries : List (Nat × Nat)) : List Nat :=
  (entries.filter (fun dt => dt.1 == 2)).map Prod.snd

/-- Curve-dimension tags of one descendant list, in reported order
(the `dim == 1` branch of the loop in `Bitter.py` lines 118-129). -/
def curveTags (entries : List (Nat × Nat)) : List Nat :=
  (entries.filter (fun dt => dt.1 == 1)).map Prod.snd

/-- One step of the reconciliation loop of `Bitter.gmsh_ids`
(`Bitter.py` lines 118-129): partition a descendant list by dimension
and append the surface part and the curve part to the respective
accumulators only when nonempty. -/
def reconcileStep (acc : List (List Nat) × List (List Nat))
    (entries : List (Nat × Nat)) : List (List Nat) × List (List Nat) :=
  let ids := surfaceTags entries
  let cracks := curveTags entries
  (if ids.isEmpty then acc.1 else acc.1 ++ [ids],
   if cracks.isEmpty then acc.2 else acc.2 ++ [cracks])

/-- Reconciliation loop of `Bitter.gmsh_ids` (`Bitter.py` lines
118-133): `m` is the per-input descendant map returned by the boolean
`fragment`/`cut` call (one entry per input shape, domain and tools
alike); the result is `(ngmsh_ids, ngmsh_cracks)`. -/
def gmsh_ids_reconcile (m : List (List (Nat × Nat))) :
    List (List Nat) × List (List Nat) :=
  m.foldl reconcileStep ([], [])

/- ----------------------------------------------------------------
   Bitter.py / Helix.py : primitive emission (stub slices)
   ---------------------------------------------------------------- -/

/-- Axis-aligned rectangle submitted to `gmsh.model.occ.addRectangle`:
corner `(x, y)`, width `dx`, height `dy`. -/
structure Rect where
  x : ℚ
  y : ℚ
  dx : ℚ
  dy : ℚ
deriving DecidableEq

/-- Tolerance used by `Bitter.gmsh_ids` for stub slices (`Bitter.py`
line 59: `tol = 1e-10`). -/
def bitter_stub_tol : ℚ := 1 / 10000000000

/-- Rectangle sequence emitted by `Bitter.gmsh_ids` (`Bitter.py` lines
55-76): an optional leading stub when `abs(y - z[0]) >= tol`, one
rectangle of height `n * pitch` per axi slice, and an optional
trailing stub when `abs(y - z[1]) >= tol`. -/
def bitter_rects (r0 r1 z0 z1 h : ℚ) (turns pitches : List ℚ) : List Rect :=
  let x := r0
  let dr := r1 - r0
  let y0 := -h
  let lead := if bitter_stub_tol ≤ |y0 - z0| then [⟨x, z0, dr, |y0 - z0|⟩] else []
  let body := (turns.zip pitches).foldl
    (fun acc np => (acc.1 ++ [⟨x, acc.2, dr, np.1 * np.2⟩], acc.2 + np.1 * np.2))
    (([] : List Rect), y0)
  let trail := if bitter_stub_tol ≤ |body.2 - z1| then [⟨x, body.2, dr, |body.2 - z1|⟩] else []
  lead ++ body.1 ++ trail

/-- Rectangle sequence emitted by `Helix.gmsh_ids` (`Helix.py` lines
82-121), chamfer cuts aside (they modify a surface in place and do not
change the emitted rectangle count): the leading guard is
`abs(y - z[0]) >= 0` (line 93) and the trailing guard is
`abs(z[1] - y) >= 0` (line 112). -/
def helix_rects (r0 r1 z0 z1 h : ℚ) (turns pitches : List ℚ) : List Rect :=
  let x := r0
  let dr := r1 - r0
  let y0 := -h
  let lead := if (0 : ℚ) ≤ |y0 - z0| then [⟨x, z0, dr, |y0 - z0|⟩] else []
  let body := (turns.zip pitches).foldl
    (fun acc np => (acc.1 ++ [⟨x, acc.2, dr, np.1 * np.2⟩], acc.2 + np.1 * np.2))
    (([] : List Rect), y0)
  let trail := if (0 : ℚ) ≤ |z1 - body.2| then [⟨x, body.2, dr, |z1 - body.2|⟩] else []
  lead ++ body.1 ++ trail

/- ----------------------------------------------------------------
   Bitter.py : gmsh_bcs solid physical groups
   ---------------------------------------------------------------- -/

/-- One element of the `B_ids` list received by `Bitter.gmsh_bcs`: a
bare kernel tag when no boolean operation ran, or a descendant tag
list after fragmentation. -/
inductive BEntry where
  | single (t : Nat)
  | multi (ts : List Nat)
deriving DecidableEq

/-- Deep flattening of `B_ids`, as `utils.lists.flatten` does. -/
def flattenB : List BEntry → List Nat
  | [] => []
  | .single t :: rest => t :: flattenB rest
  | .multi ts :: rest => ts ++ flattenB rest

/-- Fuel-indexed scanner for the substitution `re.sub` of the pattern
underscore-Slit-digits by the empty string; fuel bounds the number of
steps (the input length always suffices). -/
def stripSlitFuel : Nat → List Char → List Char
  | 0, l => l
  | fuel + 1, l =>
    match l with
    | '_' :: 'S' :: 'l' :: 'i' :: 't' :: d :: rest =>
        if d.isDigit then stripSlitFuel fuel (rest.dropWhile Char.isDigit)
        else '_' :: stripSlitFuel fuel ('S' :: 'l' :: 'i' :: 't' :: d :: rest)
    | c :: rest => c :: stripSlitFuel fuel rest
    | [] => []

/-- Name canonicalization used by `Bitter.gmsh_bcs` (`Bitter.py` line
194): delete every occurrence of an underscore, the word Slit and a
nonempty digit run from the physical-surface name. -/
def stripSlit (s : String) : String :=
  ⟨stripSlitFuel s.data.length s.data⟩

/-- Registration loop of `Bitter.gmsh_bcs` for solid regions
(`Bitter.py` lines 187-204): one physical group is added per element
of `B_ids`; the group name is `psnames[num]` with the slit suffix
stripped, and `num` advances by one for a bare tag and by the list
length for a descendant list. -/
def bitter_solid_groups_go (psnames : List String) :
    List BEntry → Nat → List (String × List Nat)
  | [], _ => []
  | .single t :: rest, num =>
      (stripSlit (psnames.getD num ""), [t]) :: bitter_solid_groups_go psnames rest (num + 1)
  | .multi ts :: rest, num =>
      (stripSlit (psnames.getD num ""), ts) :: bitter_solid_groups_go psnames rest (num + ts.length)

/-- Solid physical-group creation of `Bitter.gmsh_bcs` (`Bitter.py`
lines 173-204): the `assert len(flatten(B_ids)) == len(psnames)` gate
is modelled by returning `none` on mismatch; when `psnames` is empty
the fallback single name is appended first (lines 185-186). -/
def bitter_solid_groups (mname : String) (bids : List BEntry)
    (psnames0 : List String) : Option (List (String × List Nat)) :=
  if (flattenB bids).length = psnames0.length then
    let psnames := if psnames0.isEmpty then [mname ++ "_B1_Slit0"] else psnames0
    some (bitter_solid_groups_go psnames bids 0)
  else none

/- ----------------------------------------------------------------
   mesh/groups.py : create_physicalbcs channel grouping
   ---------------------------------------------------------------- -/

/-- Insertion-ordered model of the Python dict `bctags`: name to
entity-tag list. -/
abbrev BCTags := List (String × List Nat)

/-- Lookup `bctags[bc]` (with the `bc in bctags` membership test). -/
def findTags (bctags : BCTags) (bc : String) : Option (List Nat) :=
  (bctags.find? (fun p => p.1 == bc)).map Prod.snd

/-- Model of `del bctags[bc]`. -/
def eraseTag (bctags : BCTags) (bc : String) : BCTags :=
  bctags.filter (fun p => !(p.1 == bc))

/-- One name of a grouping, as processed by the inner loop of
`create_physicalbcs` (`mesh/groups.py` lines 160-162): when the name
is present its tags are concatenated to the accumulator and the name
is deleted from `bctags` at once. -/
def channelStep (acc : List Nat × BCTags) (bc : String) : List Nat × BCTags :=
  match findTags acc.2 bc with
  | some v => (acc.1 ++ v, eraseTag acc.2 bc)
  | none => acc

/-- Resolution of one channel grouping (`mesh/groups.py` lines
159-162): returns the gathered tag list and the updated `bctags`. -/
def resolveChannel (bctags : BCTags) (channel : List String) :
    List Nat × BCTags :=
  channel.foldl channelStep ([], bctags)

/-- Erasing fold extracted from `resolveChannel`: only the `bctags`
component, which each step either leaves alone or erases from. -/
def eraseStep (bt : BCTags) (bc : String) : BCTags :=
  match findTags bt bc with
  | some _ => eraseTag bt bc
  | none => bt

/-- Channel grouping pass of `create_physicalbcs` for a `Channels`
list (`mesh/groups.py` lines 155-166): each grouping is resolved in
turn, its constituents being deleted immediately, and a new entry
named Channel-index is appended when any tag was gathered. -/
def processChannels (bctags : BCTags) (channels : List (List String)) : BCTags :=
  (channels.foldl
    (fun st channel =>
      let r := resolveChannel st.1 channel
      let bt := if r.1.isEmpty then r.2
        else r.2 ++ [("Channel" ++ Nat.repr st.2, r.1)]
      (bt, st.2 + 1))
    (bctags, 0)).1

/- ----------------------------------------------------------------
   mesh/axi.py : gmsh_msh mesh-size field composition
   ---------------------------------------------------------------- -/

/-- Kernel bounding box `(xmin, ymin, zmin, xmax, ymax, zmax)` as
returned by `gmsh.model.getBoundingBox`. -/
structure BBox where
  xmin : ℚ
  ymin : ℚ
  zmin : ℚ
  xmax : ℚ
  ymax : ℚ
  zmax : ℚ
deriving DecidableEq

/-- One entry of the `lc_data` dictionary built by `gmsh_msh`
(`mesh/axi.py` lines 96-141): a named region, the bounding boxes of
its surfaces, and its target characteristic length. -/
structure LcData where
  name : String
  boxes : List BBox
  lc : ℚ
deriving DecidableEq

/-- Mesh-size fields registered through `gmsh.model.mesh.field.add` in
`gmsh_msh`, with the parameters set on each of them. -/
inductive SizeField where
  | distance (nodes : List Nat)
  | threshold (ifield : Nat) (lcMin lcMax distMin distMax : ℚ) (stopAtDistMax : Bool)
  | box (vIn vOut x0 x1 y0 y1 : ℚ) (thickness : Option ℚ)
  | minOf (fields : List Nat)
deriving DecidableEq

/-- Distance-field test. -/
def SizeField.isDistance : SizeField → Bool
  | .distance _ => true
  | _ => false

/-- Threshold-field test. -/
def SizeField.isThreshold : SizeField → Bool
  | .threshold _ _ _ _ _ _ => true
  | _ => false

/-- Box-field test. -/
def SizeField.isBox : SizeField → Bool
  | .box _ _ _ _ _ _ _ => true
  | _ => false

/-- Minimum-combinator test. -/
def SizeField.isMinOf : SizeField → Bool
  | .minOf _ => true
  | _ => false

/-- Outcome of the size-field composition of `gmsh_msh`: the coarse
point size applied to every dim-0 entity before any field is added
(`mesh/axi.py` line 75), the numbered fields, and the field set as
background mesh, when any. -/
structure MeshSizeSetup where
  globalSize : ℚ
  fields : List (Nat × SizeField)
  background : Option Nat
deriving DecidableEq

/-- Model of `math.copysign(m, s)` on rationals. -/
def copysign (m s : ℚ) : ℚ := if s < 0 then -|m| else |m|

/-- Air fields of `gmsh_msh` (`mesh/axi.py` lines 228-273): a Distance
field on the origin point, a Threshold ramp bound to it, and a Box
field over the envelope of the region boxes; the Threshold and the Box
ids join `dfields`, the Distance id does not. -/
def airFields (origin : Nat) (lcar1 unit : ℚ) (lcData : List LcData) (n : Nat) :
    List (Nat × SizeField) × List Nat × Nat :=
  let distanceF := (n, SizeField.distance [origin])
  let thresholdF := (n + 1,
    SizeField.threshold n (lcar1 / 100 * unit) (lcar1 * unit) (10 * unit) (14 * unit) true)
  let bounds := lcData.reverse.foldl
    (fun acc d => d.boxes.foldl
      (fun acc2 b => (max b.xmin acc2.1, max b.zmax acc2.2.1, min b.zmin acc2.2.2)) acc)
    ((0 : ℚ), (0 : ℚ), (0 : ℚ))
  let boxF := (n + 2,
    SizeField.box (lcar1 / 30 * unit) (lcar1 * unit) (0 * unit) (8 / 10 * bounds.1)
      (copysign (12 / 10 * bounds.2.2) bounds.2.2)
      (copysign (12 / 10 * bounds.2.1) bounds.2.1) (some (3 / 10 * unit)))
  ([distanceF, thresholdF, boxF], [n + 1, n + 2], n + 3)

/-- Box fields of one `lc_data` entry (`mesh/axi.py` lines 283-294):
one Box field per bounding box, VIn the region's target length, VOut
the coarse size, no thickness. -/
def boxFieldsGo (lc lcar1 unit : ℚ) : List BBox → Nat → List (Nat × SizeField)
  | [], _ => []
  | b :: rest, n =>
      (n, SizeField.box (lc * unit) (lcar1 * unit) (b.xmin * unit) (b.xmax * unit)
        (b.ymin * unit) (b.ymax * unit) none) :: boxFieldsGo lc lcar1 unit rest (n + 1)

/-- Region loop of `gmsh_msh` (`mesh/axi.py` lines 275-294): iterate
the `lc_data` entries (already put in reverse registration order by
the caller), numbering fields sequentially and collecting every new id
into `dfields`. -/
def regionBoxFields (lcar1 unit : ℚ) : List LcData → Nat →
    List (Nat × SizeField) × List Nat × Nat
  | [], n => ([], [], n)
  | d :: rest, n =>
      let these := boxFieldsGo d.lc lcar1 unit d.boxes n
      let r := regionBoxFields lcar1 unit rest (n + d.boxes.length)
      (these ++ r.1, these.map Prod.fst ++ r.2.1, r.2.2)

/-- Mesh-size field composition of `gmsh_msh` (`mesh/axi.py` lines
57-437) on its live path (no HXT support, the `Lines` and `Boxes`
switches are `False` in the source, and the attractor loop runs over
the empty `uniq` list): the coarse point size `lcar1 = 80 * unit` is
set first; when `air` is on, the origin Distance/Threshold pair and
the air Box field are added; then one Box field per region bounding
box, regions in reverse registration order; finally, when `dfields` is
nonempty, a minimum-of-fields combinator over `dfields` is added and
set as the background mesh. -/
def gmsh_msh_fields (air scaling : Bool) (origin : Nat) (lcData : List LcData) :
    MeshSizeSetup :=
  let unit : ℚ := if scaling then 1 / 1000 else 1
  let lcar1 : ℚ := 80 * unit
  let a := if air then airFields origin lcar1 unit lcData 0
    else (([] : List (Nat × SizeField)), ([] : List Nat), 0)
  let r := regionBoxFields lcar1 unit lcData.reverse a.2.2
  let fields := a.1 ++ r.1
  let dfields := a.2.1 ++ r.2.1
  if dfields.isEmpty then
    { globalSize := lcar1, fields := fields, background := none }
  else
    { globalSize := lcar1, fields := fields ++ [(r.2.2, SizeField.minOf dfields)],
      background := some r.2.2 }

/- ----------------------------------------------------------------
   axi/MeshAxiData.py : createMeshAxiData
   ---------------------------------------------------------------- -/

/-- Outcome of `MeshAxiData.from_yaml` as seen by `createMeshAxiData`:
either a loaded mesh-size mapping, an `ObjectLoadError` carrying its
message, or any other exception. -/
inductive LoadOutcome where
  | ok (data : List (String × ℚ))
  | loadError (msg : String)
  | otherError (msg : String)
deriving DecidableEq

/-- Result of a successful `createMeshAxiData` call: the mesh-size
mapping in use, whether defaults were recomputed, and whether the side
file was rewritten by `dump`. -/
structure MeshAxiResult where
  data : List (String × ℚ)
  regenerated : Bool
  dumped : Bool
deriving DecidableEq

/-- Message fragment used by `createMeshAxiData` to recognize a
missing file (`axi/MeshAxiData.py` line 294). -/
def fileMissingMarker : List Char := "YAML file not found".data

/-- Boolean test that the first list is an initial segment of the
second. -/
def beginsWith : List Char → List Char → Bool
  | [], _ => true
  | _ :: _, [] => false
  | a :: as, b :: bs => a == b && beginsWith as bs

/-- Boolean substring containment, as the Python `in` operator on
strings. -/
def containsSub (pat : List Char) : List Char → Bool
  | [] => beginsWith pat []
  | c :: rest => beginsWith pat (c :: rest) || containsSub pat rest

/-- Model of `createMeshAxiData` (`axi/MeshAxiData.py` lines 281-317):
a successful load returns the loaded data; an `ObjectLoadError` whose
message contains the missing-file marker regenerates the defaults and
persists them with `dump`; any other `ObjectLoadError` (a parse
failure) raises; any other exception raises. -/
def createMeshAxiData (outcome : LoadOutcome)
    (defaults : List (String × ℚ)) : Except String MeshAxiResult :=
  match outcome with
  | .ok d => .ok ⟨d, false, false⟩
  | .loadError msg =>
      if containsSub fileMissingMarker msg.data then .ok ⟨defaults, true, true⟩
      else .error ("*** Failed to parse YAML in " ++ msg)
  | .otherError msg => .error ("Failed to load MeshAxiData: " ++ msg)

/- ----------------------------------------------------------------
   Theorems
   ---------------------------------------------------------------- -/

/-- Closed form of `minmax`: lower bounds are padded by `padLo`, upper
bounds by `padHi`. -/
theorem minmax_eq (b0 b1 b2 b3 eps : ℚ) :
    minmax [b0, b1, b2, b3] eps =
      (padLo b0 eps, padHi b2 eps, padLo b1 eps, padHi b3 eps) := rfl

/-- Lower-bound padding never increases the bound when the tolerance
is nonnegative. -/
theorem padLo_le (b eps : ℚ) (h : 0 ≤ eps) : padLo b eps ≤ b := by
  unfold padLo
  split_ifs with h0 hneg
  · rw [h0]; linarith
  · nlinarith
  · nlinarith

/-- Upper-bound padding never decreases the bound when the tolerance
is nonnegative. -/
theorem le_padHi (b eps : ℚ) (h : 0 ≤ eps) : b ≤ padHi b eps := by
  unfold padHi
  split_ifs with h0 hneg
  · rw [h0]; linarith
  · nlinarith
  · nlinarith

/-- Lower-bound padding is antitone in the tolerance. -/
theorem padLo_anti (b e1 e2 : ℚ) (h : e1 ≤ e2) : padLo b e2 ≤ padLo b e1 := by
  unfold padLo
  split_ifs with h0 hneg
  · linarith
  · nlinarith
  · push_neg at h0 hneg
    nlinarith [lt_of_le_of_ne hneg (Ne.symm h0)]

/-- Upper-bound padding is monotone in the tolerance. -/
theorem padHi_mono (b e1 e2 : ℚ) (h : e1 ≤ e2) : padHi b e1 ≤ padHi b e2 := by
  unfold padHi
  split_ifs with h0 hneg
  · linarith
  · nlinarith
  · push_neg at h0 hneg
    nlinarith [lt_of_le_of_ne hneg (Ne.symm h0)]

/-- C5 counterexample: the claim says a positive bound is scaled by
one plus the tolerance and a negative bound by one minus it; but for
the minimum bounds `minmax` does the opposite: the positive `rmin`
bound `100` is scaled by one minus the tolerance and the negative
`zmin` bound `-50` by one plus it. -/
theorem C5_counterexample :
    (minmax [100, -50, 150, 50] (1 / 1000000)).1 = 100 * (1 - 1 / 1000000) ∧
    (minmax [100, -50, 150, 50] (1 / 1000000)).1 ≠ 100 * (1 + 1 / 1000000) ∧
    (minmax [100, -50, 150, 50] (1 / 1000000)).2.2.1 = -50 * (1 + 1 / 1000000) ∧
    (minmax [100, -50, 150, 50] (1 / 1000000)).2.2.1 ≠ -50 * (1 - 1 / 1000000) := by
  refine ⟨by norm_num [minmax], by norm_num [minmax], by norm_num [minmax],
    by norm_num [minmax]⟩

/-- C5 (amended): `minmax` pads each bound outward in a sign-aware
way: a positive minimum bound is scaled by one minus the tolerance and
a negative one by one plus it, a positive maximum bound is scaled by
one plus the tolerance and a negative one by one minus it, and a bound
exactly equal to zero is replaced by the negated tolerance for a
minimum bound and by the tolerance for a maximum bound; hence for a
nonnegative tolerance every padded bound lies on or outside the
original bound and a zero bound never produces a zero-width slab. -/
theorem C5_minmax_outward (b0 b1 b2 b3 eps : ℚ) (heps : 0 ≤ eps) :
    ((minmax [b0, b1, b2, b3] eps).1 ≤ b0 ∧
      (minmax [b0, b1, b2, b3] eps).2.2.1 ≤ b1 ∧
      b2 ≤ (minmax [b0, b1, b2, b3] eps).2.1 ∧
      b3 ≤ (minmax [b0, b1, b2, b3] eps).2.2.2) ∧
    (b0 = 0 → (minmax [b0, b1, b2, b3] eps).1 = -eps) ∧
    (b1 = 0 → (minmax [b0, b1, b2, b3] eps).2.2.1 = -eps) ∧
    (b2 = 0 → (minmax [b0, b1, b2, b3] eps).2.1 = eps) ∧
    (b3 = 0 → (minmax [b0, b1, b2, b3] eps).2.2.2 = eps) ∧
    (0 < b0 → (minmax [b0, b1, b2, b3] eps).1 = b0 * (1 - eps)) ∧
    (b0 < 0 → (minmax [b0, b1, b2, b3] eps).1 = b0 * (1 + eps)) ∧
    (0 < b2 → (minmax [b0, b1, b2, b3] eps).2.1 = b2 * (1 + eps)) ∧
    (b2 < 0 → (minmax [b0, b1, b2, b3] eps).2.1 = b2 * (1 - eps)) := by
  refine ⟨⟨padLo_le b0 eps heps, padLo_le b1 eps heps,
    le_padHi b2 eps heps, le_padHi b3 eps heps⟩, ?_, ?_, ?_, ?_, ?_, ?_, ?_, ?_⟩
  · intro h; simp [minmax_eq, padLo, h]
  · intro h; simp [minmax_eq, padLo, h]
  · intro h; simp [minmax_eq, padHi, h]
  · intro h; simp [minmax_eq, padHi, h]
  · intro h; simp [minmax_eq, padLo, h.ne', not_lt.mpr h.le]
  · intro h; simp [minmax_eq, padLo, h, h.ne]
  · intro h; simp [minmax_eq, padHi, h.ne', not_lt.mpr h.le]
  · intro h; simp [minmax_eq, padHi, h, h.ne]

/-- C5 witness: the amended statement evaluated at a concrete box and
tolerance. -/
theorem C5_minmax_outward_witness :
    (0 : ℚ) ≤ 1 / 1000000 ∧ (minmax [100, -50, 150, 50] (1 / 1000000)).1 ≤ 100 :=
  ⟨by norm_num,
    (C5_minmax_outward 100 (-50) 150 50 (1 / 1000000) (by norm_num)).1.1⟩

/-- C6: the `minmax` padding is monotone in the tolerance: for
tolerances `0 ≤ e1 ≤ e2` each lower bound at `e2` is at most the lower
bound at `e1` and each upper bound at `e1` is at most the upper bound
at `e2`, so the padded region only grows with the tolerance. -/
theorem C6_minmax_monotone (b0 b1 b2 b3 e1 e2 : ℚ) (h0 : 0 ≤ e1) (h12 : e1 ≤ e2) :
    (minmax [b0, b1, b2, b3] e2).1 ≤ (minmax [b0, b1, b2, b3] e1).1 ∧
    (minmax [b0, b1, b2, b3] e2).2.2.1 ≤ (minmax [b0, b1, b2, b3] e1).2.2.1 ∧
    (minmax [b0, b1, b2, b3] e1).2.1 ≤ (minmax [b0, b1, b2, b3] e2).2.1 ∧
    (minmax [b0, b1, b2, b3] e1).2.2.2 ≤ (minmax [b0, b1, b2, b3] e2).2.2.2 :=
  ⟨padLo_anti b0 e1 e2 h12, padLo_anti b1 e1 e2 h12,
    padHi_mono b2 e1 e2 h12, padHi_mono b3 e1 e2 h12⟩

/-- C6 witness: monotonicity evaluated at a concrete box and a
concrete pair of tolerances. -/
theorem C6_minmax_monotone_witness :
    (0 : ℚ) ≤ 1 / 1000000 ∧ (1 : ℚ) / 1000000 ≤ 1 / 1000 ∧
    (minmax [100, -50, 150, 50] (1 / 1000)).1 ≤
      (minmax [100, -50, 150, 50] (1 / 1000000)).1 :=
  ⟨by norm_num, by norm_num,
    (C6_minmax_monotone 100 (-50) 150 50 (1 / 1000000) (1 / 1000)
      (by norm_num) (by norm_num)).1⟩

/-- Unfolding of the reconciliation fold with an arbitrary
accumulator. -/
theorem reconcile_foldl (m : List (List (Nat × Nat))) (a b : List (List Nat)) :
    m.foldl reconcileStep (a, b) =
      (a ++ (m.map surfaceTags).filter (fun l => !l.isEmpty),
       b ++ (m.map curveTags).filter (fun l => !l.isEmpty)) := by
  induction m generalizing a b with
  | nil => simp
  | cons e rest ih =>
      simp only [List.foldl_cons, List.map_cons, List.filter_cons]
      rw [ih]
      unfold reconcileStep
      by_cases hs : (surfaceTags e).isEmpty <;>
        by_cases hc : (curveTags e).isEmpty <;>
          simp [hs, hc, List.append_assoc]

/-- C1 (amended): the reconciliation loop of `Bitter.gmsh_ids` keeps,
in order, exactly the per-input surface-descendant lists that are
nonempty (and likewise the nonempty curve-descendant lists); an input
whose descendant list has no surface entry is silently dropped, so the
output can be shorter than the input with no error raised at this
point — every retained list does contain at least one surface tag, and
the length parity with the inputs is only checked downstream by the
assertion of `Bitter.gmsh_bcs`. -/
theorem C1_reconcile_drops_empty (m : List (List (Nat × Nat))) :
    (gmsh_ids_reconcile m).1 = (m.map surfaceTags).filter (fun l => !l.isEmpty) ∧
    (gmsh_ids_reconcile m).2 = (m.map curveTags).filter (fun l => !l.isEmpty) ∧
    ∀ ids ∈ (gmsh_ids_reconcile m).1, ids ≠ [] := by
  have h := reconcile_foldl m [] []
  simp only [List.nil_append] at h
  unfold gmsh_ids_reconcile
  rw [h]
  refine ⟨rfl, rfl, ?_⟩
  intro ids hm
  have h2 := (List.mem_filter.mp hm).2
  simpa [List.isEmpty_iff] using h2

/-- C1 counterexample: a fragment map for two input domain shapes in
which the second input has no surface descendant (only a realized
curve); the reconciliation loop returns only one surface list instead
of two and raises nothing. -/
theorem C1_counterexample :
    gmsh_ids_reconcile [[(2, 10)], [(1, 7)]] = ([[10]], [[7]]) ∧
    ([[(2, 10)], [(1, 7)]] : List (List (Nat × Nat))).length = 2 ∧
    (gmsh_ids_reconcile [[(2, 10)], [(1, 7)]]).1.length = 1 ∧
    (1 : Nat) ≠ 2 := by decide

/-- Length of the solid-group registration loop output. -/
theorem bitter_go_length (psnames : List String) (bids : List BEntry) (num : Nat) :
    (bitter_solid_groups_go psnames bids num).length = bids.length := by
  induction bids generalizing num with
  | nil => rfl
  | cons e rest ih => cases e <;> simp [bitter_solid_groups_go, ih]

/-- C2 (amended): `Bitter.gmsh_bcs` proceeds exactly when the
flattened count of fragmented surface ids equals the length of the
name list returned by `get_names` (the assertion), and it then creates
one solid physical group per element of `B_ids` — one per descendant
list, not one per name — so the number of solid groups equals
`len(B_ids)`, which equals `len(psnames)` only when no element was
fragmented into more than one surface. -/
theorem C2_solid_groups (mname : String) (bids : List BEntry) (psnames : List String) :
    ((bitter_solid_groups mname bids psnames).isSome ↔
      (flattenB bids).length = psnames.length) ∧
    ∀ gs, bitter_solid_groups mname bids psnames = some gs → gs.length = bids.length := by
  unfold bitter_solid_groups
  constructor
  · split_ifs with h <;> simp [h]
  · intro gs hgs
    split_ifs at hgs with h he <;> first
      | (rw [← Option.some_inj.mp hgs]; exact bitter_go_length _ _ _)
      | cases hgs

/-- C2 counterexample: one domain rectangle fragmented into two
surfaces; the flattened count matches the two names, the assertion
passes, but only one solid physical group is created, not two. -/
theorem C2_counterexample :
    bitter_solid_groups "" [.multi [1, 2]] ["B1_Slit0", "B1_Slit1"] =
      some [("B1", [1, 2])] ∧
    (["B1_Slit0", "B1_Slit1"] : List String).length = 2 ∧
    (bitter_solid_groups "" [.multi [1, 2]] ["B1_Slit0", "B1_Slit1"]).map
      List.length = some 1 ∧
    (1 : Nat) ≠ 2 := by decide

/-- Lookup after a cons entry. -/
theorem findTags_cons (k : String) (v : List Nat) (rest : BCTags) (y : String) :
    findTags ((k, v) :: rest) y = if k = y then some v else findTags rest y := by
  by_cases h : k = y
  · simp [findTags, List.find?, h]
  · have hb : (k == y) = false := beq_eq_false_iff_ne.mpr h
    simp [findTags, List.find?, hb, h]

/-- Erasure at a cons entry. -/
theorem eraseTag_cons (k : String) (v : List Nat) (rest : BCTags) (x : String) :
    eraseTag ((k, v) :: rest) x =
      if k = x then eraseTag rest x else (k, v) :: eraseTag rest x := by
  by_cases h : k = x <;> simp [eraseTag, h]

/-- Lookup in an erased registry: the erased name is gone, every other
name is unchanged. -/
theorem findTags_eraseTag (bt : BCTags) (x y : String) :
    findTags (eraseTag bt x) y = if y = x then none else findTags bt y := by
  induction bt with
  | nil => simp [findTags, eraseTag]
  | cons p rest ih =>
      rcases p with ⟨k, v⟩
      rw [eraseTag_cons]
      by_cases hkx : k = x
      · rw [if_pos hkx, ih, findTags_cons]
        by_cases hyx : y = x
        · simp [hyx]
        · rw [if_neg hyx, if_neg hyx, if_neg (by rw [hkx]; exact fun e => hyx e.symm)]
      · rw [if_neg hkx, findTags_cons, findTags_cons]
        by_cases hky : k = y
        · rw [if_pos hky, if_pos hky, if_neg (by rw [← hky]; exact fun e => hkx e)]
        · rw [if_neg hky, if_neg hky, ih]

/-- Gathered tags of one grouping with an arbitrary accumulator, when
the grouping names are distinct and all present: the result is the
concatenation, in grouping order, of the constituent tag lists. -/
theorem resolve_fst (channel : List String) (ts : List Nat) (bt : BCTags)
    (hnd : channel.Nodup) (hall : ∀ bc ∈ channel, (findTags bt bc).isSome) :
    (channel.foldl channelStep (ts, bt)).1 =
      ts ++ (channel.map (fun bc => (findTags bt bc).getD [])).flatten := by
  induction channel generalizing ts bt with
  | nil => simp
  | cons x rest ih =>
      have hx : (findTags bt x).isSome := hall x (by simp)
      rcases hfx : findTags bt x with _ | v
      · rw [hfx] at hx; cases hx
      · have hnd2 := List.nodup_cons.mp hnd
        have hne : ∀ bc ∈ rest, ¬bc = x := by
          intro bc hbc e
          subst e
          exact hnd2.1 hbc
        simp only [List.foldl_cons, channelStep, hfx]
        rw [ih (ts ++ v) (eraseTag bt x) hnd2.2 (by
          intro bc hbc
          rw [findTags_eraseTag, if_neg (hne bc hbc)]
          exact hall bc (List.mem_cons_of_mem x hbc))]
        rw [List.map_congr_left (fun bc hbc => by
          rw [findTags_eraseTag, if_neg (hne bc hbc)])]
        simp [hfx, List.append_assoc]

/-- C3 (amended): the channel grouping pass of `create_physicalbcs`
builds each channel's tag list as the plain concatenation of its
constituent regions' tag lists, with no deduplication: the channel's
tag count is the sum of the constituents' tag counts, so an entity
shared by two constituents appears once per constituent. -/
theorem C3_channel_concat (bctags : BCTags) (channel : List String)
    (hnd : channel.Nodup) (hall : ∀ bc ∈ channel, (findTags bctags bc).isSome) :
    (resolveChannel bctags channel).1 =
      (channel.map (fun bc => (findTags bctags bc).getD [])).flatten ∧
    (resolveChannel bctags channel).1.length =
      (channel.map (fun bc => ((findTags bctags bc).getD []).length)).sum := by
  have h := resolve_fst channel [] bctags hnd hall
  simp only [List.nil_append] at h
  refine ⟨h, ?_⟩
  rw [show (resolveChannel bctags channel).1 = _ from h]
  rw [List.length_flatten, List.map_map]
  rfl

/-- C3 witness: the amended statement evaluated on two overlapping
constituent regions. -/
theorem C3_channel_concat_witness :
    (["A", "B"] : List String).Nodup ∧
    (∀ bc ∈ (["A", "B"] : List String),
      (findTags [("A", [1, 2]), ("B", [2, 3])] bc).isSome) ∧
    (resolveChannel [("A", [1, 2]), ("B", [2, 3])] ["A", "B"]).1 =
      ((["A", "B"] : List String).map
        (fun bc => (findTags [("A", [1, 2]), ("B", [2, 3])] bc).getD [])).flatten :=
  ⟨by decide, by decide,
    (C3_channel_concat [("A", [1, 2]), ("B", [2, 3])] ["A", "B"]
      (by decide) (by decide)).1⟩

/-- C3 counterexample: two constituents sharing one entity tag yield a
channel with four tags — the sum of the sizes — not three as the
deduplicating union would. -/
theorem C3_counterexample :
    processChannels [("A", [1, 2]), ("B", [2, 3])] [["A", "B"]] =
      [("Channel0", [1, 2, 2, 3])] ∧
    ([1, 2, 2, 3] : List Nat).length = 2 + 2 ∧
    ([1, 2, 2, 3] : List Nat).dedup.length = 3 ∧
    (2 + 2 : Nat) ≠ 3 := by decide

/-- Registry component of the grouping fold, extracted: each step
either leaves the registry alone or erases one name from it. -/
theorem resolve_snd_eq (channel : List String) (ts : List Nat) (bt : BCTags) :
    (channel.foldl channelStep (ts, bt)).2 = channel.foldl eraseStep bt := by
  induction channel generalizing ts bt with
  | nil => rfl
  | cons x rest ih =>
      cases hfx : findTags bt x <;>
        simp [List.foldl_cons, channelStep, eraseStep, hfx, ih]

/-- After an erasing step the stepped name is absent. -/
theorem findTags_eraseStep_self (bt : BCTags) (bc : String) :
    findTags (eraseStep bt bc) bc = none := by
  cases hfx : findTags bt bc with
  | none => simpa [eraseStep, hfx] using hfx
  | some v => simp [eraseStep, hfx, findTags_eraseTag]

/-- An absent name stays absent through the erasing fold. -/
theorem findTags_none_fold (rest : List String) (bt : BCTags) (bc : String)
    (h : findTags bt bc = none) :
    findTags (rest.foldl eraseStep bt) bc = none := by
  induction rest generalizing bt with
  | nil => exact h
  | cons x xs ih =>
      refine ih (eraseStep bt x) ?_
      cases hfx : findTags bt x with
      | none => simpa [eraseStep, hfx] using h
      | some v =>
          rw [eraseStep, hfx, findTags_eraseTag]
          split_ifs with hbx
          · rfl
          · exact h

/-- Any name of a grouping is absent from the registry as soon as that
grouping has been resolved. -/
theorem mem_fold_erased (channel : List String) (bt : BCTags) (bc : String)
    (h : bc ∈ channel) :
    findTags (channel.foldl eraseStep bt) bc = none := by
  induction channel generalizing bt with
  | nil => cases h
  | cons x rest ih =>
      rcases List.mem_cons.mp h with rfl | hr
      · exact findTags_none_fold rest _ _ (findTags_eraseStep_self _ _)
      · exact ih (eraseStep bt x) hr

/-- C4 (amended): `create_physicalbcs` deletes each constituent name
from the registry immediately, while the grouping that mentions it is
being resolved, not after all groupings are done; as soon as one
grouping has been resolved every name it mentions is gone, so a name
shared by two groupings contributes its tags only to the first. -/
theorem C4_immediate_removal (bctags : BCTags) (channel : List String) (bc : String)
    (h : bc ∈ channel) :
    findTags (resolveChannel bctags channel).2 bc = none := by
  unfold resolveChannel
  rw [resolve_snd_eq]
  exact mem_fold_erased channel bctags bc h

/-- C4 witness: the amended statement evaluated on a concrete grouping
and registry. -/
theorem C4_immediate_removal_witness :
    ("A" ∈ (["A", "B"] : List String)) ∧
    findTags (resolveChannel [("A", [1]), ("B", [2])] ["A", "B"]).2 "A" = none :=
  ⟨by decide,
    C4_immediate_removal [("A", [1]), ("B", [2])] ["A", "B"] "A" (by decide)⟩

/-- C4 counterexample: the name A appears in two groupings; it is
deleted while the first grouping is resolved, so the second grouping
gathers nothing and no second channel is created — A does not
contribute to both channels. -/
theorem C4_counterexample :
    processChannels [("A", [1])] [["A"], ["A"]] = [("Channel0", [1])] ∧
    findTags (processChannels [("A", [1])] [["A"], ["A"]]) "Channel1" = none := by
  decide

/-- C7: on a geometry whose turn stack exactly fills the requested
axial extent, `Bitter.gmsh_ids` emits no stub rectangle — the
difference is zero, below the tolerance of ten to the minus ten — but
`Helix.gmsh_ids` emits a leading and a trailing stub of height zero,
because its guards compare the absolute difference against zero
instead of against the tolerance and are therefore always true; the
zero-area rectangles contradict the claimed tolerance rule (and the
stated rejection of zero-area slices), with `Bitter.py` showing the
intended guard. -/
theorem C7_helix_zero_area_stub :
    bitter_rects 1 2 (-3) (-1) 3 [1] [2] = [⟨1, -3, 1, 2⟩] ∧
    helix_rects 1 2 (-3) (-1) 3 [1] [2] =
      [⟨1, -3, 1, 0⟩, ⟨1, -3, 1, 2⟩, ⟨1, -1, 1, 0⟩] ∧
    |(-3 : ℚ) - (-3)| < bitter_stub_tol ∧
    (∀ y z : ℚ, ((0 : ℚ) ≤ |y - z|) = True) := by
  refine ⟨by norm_num [bitter_rects, bitter_stub_tol], by norm_num [helix_rects], by
    norm_num [bitter_stub_tol], fun y z => by simp [abs_nonneg]⟩

/-- Last element of a registry extended by one group. -/
theorem getLast?_append_one {α : Type} (l : List α) (a : α) :
    (l ++ [a]).getLast? = some a := by
  rw [List.getLast?_append_cons]
  rfl

/-- Renaming walks the registry pointwise. -/
theorem setNameGo_append (l : List PhysGroup) (g : PhysGroup) (dim tag : Nat)
    (nm : String) (i : Nat) :
    setNameGo (l ++ [g]) dim tag nm i =
      setNameGo l dim tag nm i ++
        [if i + l.length = tag ∧ g.dim = dim then { g with name := nm } else g] := by
  induction l generalizing i with
  | nil => simp [setNameGo]
  | cons p rest ih =>
      simp only [List.cons_append, setNameGo, List.append_eq]
      rw [ih (i + 1)]
      rw [show i + 1 + rest.length = i + (p :: rest).length from by
        rw [List.length_cons]; omega]

/-- Renaming preserves the registry length. -/
theorem setNameGo_length (l : List PhysGroup) (dim tag : Nat) (nm : String) (i : Nat) :
    (setNameGo l dim tag nm i).length = l.length := by
  induction l generalizing i with
  | nil => rfl
  | cons p rest ih => simp [setNameGo, ih]

/-- Querying with a kernel that returns nothing gathers nothing. -/
theorem bcs_query_empty (box : BoxSpec) (dim : Nat) (eps : ℚ) :
    bcs_query (fun _ _ => []) box dim eps = [] := by
  cases box with
  | single b => rfl
  | multi bs =>
      show bs.foldl (fun acc _ => acc ++ []) [] = []
      induction bs with
      | nil => rfl
      | cons b rest ih => simpa using ih

/-- C10: `create_bcs` queries the kernel for entities of the requested
dimension `dim`, but it always registers and names the resulting
physical group at dimension one, whatever `dim` was; the group is
appended to the registry and its id returned even when the query
found no entity at all. -/
theorem C10_create_bcs_dim1 (registry : List PhysGroup)
    (query : ℚ × ℚ × ℚ × ℚ → Nat → List (Nat × Nat))
    (name : String) (box : BoxSpec) (dim : Nat) (eps : ℚ) :
    (create_bcs registry query name box dim eps).1.length = registry.length + 1 ∧
    (create_bcs registry query name box dim eps).2 = registry.length ∧
    (create_bcs registry query name box dim eps).1.getLast? =
      some ⟨1, (bcs_query query box dim eps).map Prod.snd, name⟩ ∧
    (create_bcs registry (fun _ _ => []) name box dim eps).1.getLast? =
      some ⟨1, [], name⟩ := by
  have key : ∀ q : ℚ × ℚ × ℚ × ℚ → Nat → List (Nat × Nat),
      (create_bcs registry q name box dim eps).1 =
        setNameGo registry 1 registry.length name 0 ++
          [⟨1, (bcs_query q box dim eps).map Prod.snd, name⟩] := by
    intro q
    show setNameGo (registry ++ [⟨1, (bcs_query q box dim eps).map Prod.snd, ""⟩])
        1 registry.length name 0 = _
    rw [setNameGo_append]
    simp
  refine ⟨?_, rfl, ?_, ?_⟩
  · rw [key query]
    simp [setNameGo_length]
  · rw [key query, getLast?_append_one]
  · rw [key (fun _ _ => []), getLast?_append_one, bcs_query_empty]
    simp

/-- Length of the per-region box-field list. -/
theorem boxFieldsGo_length (lc lcar1 unit : ℚ) (bs : List BBox) (n : Nat) :
    (boxFieldsGo lc lcar1 unit bs n).length = bs.length := by
  induction bs generalizing n with
  | nil => rfl
  | cons b rest ih => simp [boxFieldsGo, ih]

/-- Shape of every per-region box field. -/
theorem boxFieldsGo_mem (lc lcar1 unit : ℚ) (bs : List BBox) (n : Nat)
    (p : Nat × SizeField) (hp : p ∈ boxFieldsGo lc lcar1 unit bs n) :
    ∃ b ∈ bs, p.2 = SizeField.box (lc * unit) (lcar1 * unit) (b.xmin * unit)
      (b.xmax * unit) (b.ymin * unit) (b.ymax * unit) none := by
  induction bs generalizing n with
  | nil => cases hp
  | cons b rest ih =>
      rcases List.mem_cons.mp hp with rfl | h
      · exact ⟨b, by simp, rfl⟩
      · rcases ih (n + 1) h with ⟨b2, hb2, he⟩
        exact ⟨b2, List.mem_cons_of_mem b hb2, he⟩

/-- The collected `dfields` ids of the region loop are exactly the ids
of the created fields. -/
theorem regionBoxFields_snd (lcar1 unit : ℚ) (l : List LcData) (n : Nat) :
    (regionBoxFields lcar1 unit l n).2.1 =
      (regionBoxFields lcar1 unit l n).1.map Prod.fst := by
  induction l generalizing n with
  | nil => rfl
  | cons d rest ih => simp [regionBoxFields, ih]

/-- The region loop creates one box field per region bounding box. -/
theorem regionBoxFields_length (lcar1 unit : ℚ) (l : List LcData) (n : Nat) :
    (regionBoxFields lcar1 unit l n).1.length =
      (l.map (fun d => d.boxes.length)).sum := by
  induction l generalizing n with
  | nil => rfl
  | cons d rest ih => simp [regionBoxFields, boxFieldsGo_length, ih]

/-- Every field of the region loop is a box field of one of the
regions. -/
theorem regionBoxFields_mem (lcar1 unit : ℚ) (l : List LcData) (n : Nat)
    (p : Nat × SizeField) (hp : p ∈ (regionBoxFields lcar1 unit l n).1) :
    ∃ d ∈ l, ∃ b ∈ d.boxes, p.2 = SizeField.box (d.lc * unit) (lcar1 * unit)
      (b.xmin * unit) (b.xmax * unit) (b.ymin * unit) (b.ymax * unit) none := by
  induction l generalizing n with
  | nil => cases hp
  | cons d rest ih =>
      simp only [regionBoxFields] at hp
      rcases List.mem_append.mp hp with h | h
      · exact ⟨d, by simp, boxFieldsGo_mem _ _ _ _ _ _ h⟩
      · rcases ih _ h with ⟨d2, hd2, hb⟩
        exact ⟨d2, List.mem_cons_of_mem d hd2, hb⟩

/-- Shape facts about a box field. -/
theorem isBox_shape (s : SizeField) (h : s.isBox = true) :
    s.isDistance = false ∧ s.isThreshold = false := by
  cases s <;> simp_all [SizeField.isBox, SizeField.isDistance, SizeField.isThreshold]

/-- Composition outcome without air, degenerate case: no region box at
all, hence no combinator and no background field. -/
theorem gmsh_msh_fields_false_pos (origin : Nat) (lcData : List LcData)
    (hE : (regionBoxFields 80 1 lcData.reverse 0).2.1.isEmpty = true) :
    gmsh_msh_fields false false origin lcData =
      ⟨80, (regionBoxFields 80 1 lcData.reverse 0).1, none⟩ := by
  simp [gmsh_msh_fields, hE]

/-- Composition outcome without air, main case: the region box fields
followed by the minimum combinator, which is the background field. -/
theorem gmsh_msh_fields_false_neg (origin : Nat) (lcData : List LcData)
    (hE : (regionBoxFields 80 1 lcData.reverse 0).2.1.isEmpty = false) :
    gmsh_msh_fields false false origin lcData =
      ⟨80, (regionBoxFields 80 1 lcData.reverse 0).1 ++
          [((regionBoxFields 80 1 lcData.reverse 0).2.2,
            SizeField.minOf (regionBoxFields 80 1 lcData.reverse 0).2.1)],
        some (regionBoxFields 80 1 lcData.reverse 0).2.2⟩ := by
  simp [gmsh_msh_fields, hE]

/-- C8 (amended): without an air domain, the composer creates for
every named region with an assigned target length one Box field per
bounding box of the region — VIn the target length, VOut the coarse
cap — and no Distance or Threshold field at all (the
Distance/Threshold ramp exists only for the air origin); all created
fields are combined by a minimum-of-fields combinator set as the
background mesh whenever at least one field exists, and the coarse
global point size is set first. -/
theorem C8_box_fields (origin : Nat) (lcData : List LcData) :
    (gmsh_msh_fields false false origin lcData).globalSize = 80 ∧
    (∀ p ∈ (gmsh_msh_fields false false origin lcData).fields,
      p.2.isDistance = false ∧ p.2.isThreshold = false ∧
        (p.2.isBox = true ∨ p.2.isMinOf = true)) ∧
    (∀ p ∈ (gmsh_msh_fields false false origin lcData).fields,
      p.2.isBox = true →
        ∃ d ∈ lcData, ∃ b ∈ d.boxes,
          p.2 = SizeField.box d.lc 80 b.xmin b.xmax b.ymin b.ymax none) ∧
    ((lcData.map (fun d => d.boxes.length)).sum = 0 →
      (gmsh_msh_fields false false origin lcData).background = none) ∧
    ((lcData.map (fun d => d.boxes.length)).sum ≠ 0 →
      ∃ n, (gmsh_msh_fields false false origin lcData).background = some n ∧
        (gmsh_msh_fields false false origin lcData).fields.getLast? =
          some (n, SizeField.minOf
            ((gmsh_msh_fields false false origin lcData).fields.dropLast.map
              Prod.fst))) ∧
    gmsh_msh_fields true false 0 [] =
      ⟨80, [(0, SizeField.distance [0]),
            (1, SizeField.threshold 0 (80 / 100) 80 10 14 true),
            (2, SizeField.box (80 / 30) 80 0 0 0 0 (some (3 / 10))),
            (3, SizeField.minOf [1, 2])], some 3⟩ := by
  have hsum : ((lcData.reverse.map (fun d => d.boxes.length)).sum =
      (lcData.map (fun d => d.boxes.length)).sum) := by
    rw [List.map_reverse, List.sum_reverse]
  have hmem : ∀ p ∈ (regionBoxFields 80 1 lcData.reverse 0).1,
      p.2.isBox = true ∧ ∃ d ∈ lcData, ∃ b ∈ d.boxes,
        p.2 = SizeField.box d.lc 80 b.xmin b.xmax b.ymin b.ymax none := by
    intro p hp
    rcases regionBoxFields_mem 80 1 lcData.reverse 0 p hp with ⟨d, hd, b, hb, he⟩
    refine ⟨by rw [he]; rfl, d, List.mem_reverse.mp hd, b, hb, by simpa using he⟩
  have hair : gmsh_msh_fields true false 0 [] =
      ⟨80, [(0, SizeField.distance [0]),
            (1, SizeField.threshold 0 (80 / 100) 80 10 14 true),
            (2, SizeField.box (80 / 30) 80 0 0 0 0 (some (3 / 10))),
            (3, SizeField.minOf [1, 2])], some 3⟩ := by
    norm_num [gmsh_msh_fields, airFields, regionBoxFields, copysign]
  by_cases hE : (regionBoxFields 80 1 lcData.reverse 0).2.1.isEmpty = true
  · rw [gmsh_msh_fields_false_pos origin lcData hE]
    have hnil : (regionBoxFields 80 1 lcData.reverse 0).1 = [] := by
      have h1 := regionBoxFields_snd 80 1 lcData.reverse 0
      rw [h1, List.isEmpty_iff, List.map_eq_nil_iff] at hE
      exact hE
    refine ⟨rfl, ?_, ?_, fun _ => rfl, ?_, hair⟩
    · intro p hp
      rw [hnil] at hp
      cases hp
    · intro p hp
      rw [hnil] at hp
      cases hp
    · intro hne
      exfalso
      apply hne
      rw [← hsum, ← regionBoxFields_length 80 1 lcData.reverse 0, hnil]
      rfl
  · rw [Bool.not_eq_true] at hE
    rw [gmsh_msh_fields_false_neg origin lcData hE]
    refine ⟨rfl, ?_, ?_, ?_, ?_, hair⟩
    · intro p hp
      rcases List.mem_append.mp hp with h | h
      · rcases hmem p h with ⟨hb, _⟩
        rcases isBox_shape p.2 hb with ⟨h1, h2⟩
        exact ⟨h1, h2, Or.inl hb⟩
      · rcases List.mem_singleton.mp h with rfl
        exact ⟨rfl, rfl, Or.inr rfl⟩
    · intro p hp hbox
      rcases List.mem_append.mp hp with h | h
      · exact (hmem p h).2
      · rcases List.mem_singleton.mp h with rfl
        cases hbox
    · intro hzero
      exfalso
      have h1 := regionBoxFields_length 80 1 lcData.reverse 0
      rw [hsum, hzero, List.length_eq_zero] at h1
      have h2 := regionBoxFields_snd 80 1 lcData.reverse 0
      rw [h1] at h2
      simp only [List.map_nil] at h2
      rw [h2] at hE
      cases hE
    · intro _
      refine ⟨(regionBoxFields 80 1 lcData.reverse 0).2.2, rfl, ?_⟩
      rw [getLast?_append_one]
      rw [show ((regionBoxFields 80 1 lcData.reverse 0).1 ++
          [((regionBoxFields 80 1 lcData.reverse 0).2.2,
            SizeField.minOf (regionBoxFields 80 1 lcData.reverse 0).2.1)]).dropLast =
          (regionBoxFields 80 1 lcData.reverse 0).1 from List.dropLast_concat]
      rw [← regionBoxFields_snd]

/-- C8 counterexample: one named region with a target length of one
half; the composer emits a single Box field and the minimum
combinator, and not a single Distance or Threshold field, refuting the
claimed Distance-plus-Threshold pair per region. -/
theorem C8_counterexample :
    gmsh_msh_fields false false 0 [⟨"B1", [⟨1, -1, 0, 2, 1, 0⟩], 1 / 2⟩] =
      ⟨80, [(0, SizeField.box (1 / 2) 80 1 2 (-1) 1 none), (1, SizeField.minOf [0])],
        some 1⟩ ∧
    ((gmsh_msh_fields false false 0 [⟨"B1", [⟨1, -1, 0, 2, 1, 0⟩], 1 / 2⟩]).fields.filter
      (fun p => p.2.isDistance || p.2.isThreshold)).length = 0 := by
  have h : gmsh_msh_fields false false 0 [⟨"B1", [⟨1, -1, 0, 2, 1, 0⟩], 1 / 2⟩] =
      ⟨80, [(0, SizeField.box (1 / 2) 80 1 2 (-1) 1 none), (1, SizeField.minOf [0])],
        some 1⟩ := by
    norm_num [gmsh_msh_fields, regionBoxFields, boxFieldsGo]
  refine ⟨h, ?_⟩
  rw [h]
  rfl

/-- C9: a missing persisted mesh-size file is recoverable — the
defaults are recomputed, used, and persisted by `dump` — while an
`ObjectLoadError` whose message does not carry the missing-file marker
(a parse failure) raises instead of regenerating, and a successful
load touches nothing. -/
theorem C9_load_outcomes (defaults : List (String × ℚ)) (msg : String) :
    createMeshAxiData (.loadError "YAML file not found: meshdata.yaml") defaults =
      .ok ⟨defaults, true, true⟩ ∧
    (containsSub fileMissingMarker msg.data = true →
      createMeshAxiData (.loadError msg) defaults = .ok ⟨defaults, true, true⟩) ∧
    (containsSub fileMissingMarker msg.data = false →
      createMeshAxiData (.loadError msg) defaults =
        .error ("*** Failed to parse YAML in " ++ msg)) ∧
    createMeshAxiData (.ok defaults) defaults = .ok ⟨defaults, false, false⟩ := by
  refine ⟨rfl, ?_, ?_, rfl⟩
  · intro h
    simp [createMeshAxiData, h]
  · intro h
    simp [createMeshAxiData, h]

/-- C9 witness: the two load-failure behaviours at concrete
messages. -/
theorem C9_load_outcomes_witness :
    createMeshAxiData (.loadError "YAML file not found: meshdata.yaml") [("Air", 80)] =
      .ok ⟨[("Air", 80)], true, true⟩ :=
  (C9_load_outcomes [("Air", 80)] "x").1

end Magnetgmsh
